import Mathlib

/-!
Verification of the Pasm assembler (src/pasm.c): a shallow embedding of its
lexer, parser, symbol/section builders and object-file serializer, together
with theorems settling the specification claims.

Conventions of the embedding:
* the C source buffer is a `List Char`; reading at or past its end yields the
  terminating NUL, as the C code relies on (`getC`);
* C loops over the buffer are structural recursions over the suffix
  `src.drop i` carrying the absolute index, which is equivalent because the
  loop guards all stop at the terminating NUL;
* machine integers are `Nat` (all quantities here are small and non-negative,
  no overflow is reachable in the modelled paths);
* the fallible C functions returning `int` error codes become `Except String`,
  carrying the diagnostic printed by the C code at the error site;
* the redundant C bookkeeping fields `assembly_size`, `strtab_count` and
  `shdr_count` (always equal to the lengths of their buffers) are represented
  by the lengths themselves.
-/

namespace Pasm

/-- ctype `isblank` in the default locale: space and horizontal tab. -/
def isblankC (c : Char) : Bool := c = ' ' || c = '\t'

/-- ctype `isalpha` in the default locale (ASCII letters). -/
def isalphaC (c : Char) : Bool := ('A' ≤ c && c ≤ 'Z') || ('a' ≤ c && c ≤ 'z')

/-- ctype `isalnum` in the default locale (ASCII letters and digits). -/
def isalnumC (c : Char) : Bool := isalphaC c || ('0' ≤ c && c ≤ '9')

/-- Read `src[i]` from a NUL-terminated buffer: past the end we see `'\x00'`. -/
def getC (src : List Char) (i : Nat) : Char := src.getD i '\x00'

/-- Loop body of the whitespace skip in `lex` (pasm.c:281-283), recursing on
the suffix `src.drop i` while carrying the absolute index `i`. -/
def skipBlanksAux : List Char → Nat → Nat
  | c :: l, i => if isblankC c then skipBlanksAux l (i+1) else i
  | [], i => i

/-- Index after skipping blanks starting at `i` (pasm.c:281-283). -/
def skipBlanks (src : List Char) (i : Nat) : Nat := skipBlanksAux (src.drop i) i

/-- Loop body of the comment skip in `skip_comments` (pasm.c:546-548):
advance while the character is neither a newline nor NUL. -/
def findEolAux : List Char → Nat → Nat
  | c :: l, i => if c ≠ '\n' && c ≠ '\x00' then findEolAux l (i+1) else i
  | [], i => i

/-- Index of the first `'\n'` or NUL at or after `i`. -/
def findEol (src : List Char) (i : Nat) : Nat := findEolAux (src.drop i) i

/-- skip_comments (pasm.c:539-550): on `;` or `//` skip to end of line
(do-while: the scan starts one past the comment-introducing character). -/
def skip_comments (src : List Char) (i : Nat) : Nat :=
  if getC src i = ';' || (getC src i = '/' && getC src (i+1) = '/')
  then findEol src (i+1) else i

/-- Token types (pasm.c:30-31). -/
inductive TokType where
  | ID | LABEL | DIRECTIVE | CONSTANT | REGISTER | COMMA | NEWLINE | ENDOFFILE
deriving DecidableEq, Repr

/-- token_t (pasm.c:50-54): a classified span into the source buffer. -/
structure Token where
  type : TokType
  len : Nat
  start : Nat
deriving DecidableEq, Repr

/-- Scan of the identifier continuation in `lex_id` (pasm.c:343-345):
consume `isalnum` characters. -/
def lexIdEndAux : List Char → Nat → Nat
  | c :: l, i => if isalnumC c then lexIdEndAux l (i+1) else i
  | [], i => i

/-- End index of the `isalnum` run starting at `i`. -/
def lexIdEnd (src : List Char) (i : Nat) : Nat := lexIdEndAux (src.drop i) i

/-- lex_id (pasm.c:338-349): unconditionally consume one character, then all
following `isalnum` characters; returns the token and the new cursor. -/
def lex_id (src : List Char) (i : Nat) : Token × Nat :=
  let e := lexIdEnd src (i+1)
  (⟨TokType.ID, e - i, i⟩, e)

/-- lex (pasm.c:275-330): skip blanks and a comment, then classify by the
current character.  `$` reaches `lex_constant`, which always fails
(pasm.c:332-336). -/
def lex (src : List Char) (i : Nat) : Except String (Token × Nat) :=
  let i1 := skipBlanks src i
  let i2 := skip_comments src i1
  let c := getC src i2
  if c = '$' then Except.error "lex_constant is not yet implemented!"
  else if c = '%' then
    let (t, j) := lex_id src (i2+1)
    Except.ok ({ t with type := TokType.REGISTER }, j)
  else if c = '\n' then Except.ok (⟨TokType.NEWLINE, 1, i2⟩, i2+1)
  else if c = '\x00' then Except.ok (⟨TokType.ENDOFFILE, 1, i2⟩, i2)
  else if c = '.' || c = '_' || isalphaC c then
    let (t, j) := lex_id src i2
    if getC src j = ':' then Except.ok ({ t with type := TokType.LABEL }, j+1)
    else if c = '.' then Except.ok ({ t with type := TokType.DIRECTIVE }, j)
    else Except.ok (t, j)
  else Except.error ("Invalid character `" ++ String.mk [c] ++ "` in mnemonic.")

/-- Materialize a token's text from its span, as `parse_x86_64` does with
`memcpy` (pasm.c:357-359). -/
def tokText (src : List Char) (t : Token) : String :=
  String.mk ((src.drop t.start).take t.len)

/-- Elf64_Sym with the fields the program uses, as `Nat`s. -/
structure Sym where
  st_name : Nat
  st_info : Nat
  st_other : Nat
  st_shndx : Nat
  st_value : Nat
  st_size : Nat
deriving DecidableEq, Repr

/-- ELF64_ST_INFO(bind, type) = (bind << 4) + (type & 0xf). -/
def ST_INFO (b t : Nat) : Nat := b * 16 + t % 16

def symNull : Sym := ⟨0, 0, 0, 0, 0, 0⟩

/-- elf64_obj_t (pasm.c:34-48); the `_count` fields that merely track buffer
lengths are the lengths of the corresponding lists. -/
structure Obj where
  assembly : List Nat
  syms : List Sym
  section_count : Nat
  label_count : Nat
  glabel_count : Nat
  strtab : List String
deriving DecidableEq, Repr

/-- default_symtabs_x86_64 (pasm.c:244-273) applied to the zero-initialized
object of assemble_x86_64 (pasm.c:118-125): the four fixed section symbols
(null, .text, .data, .bss), all STB_LOCAL/STT_SECTION. -/
def default_symtabs : Obj :=
  { assembly := []
    syms := [symNull,
             ⟨0, ST_INFO 0 3, 0, 1, 0, 0⟩,
             ⟨0, ST_INFO 0 3, 0, 2, 0, 0⟩,
             ⟨0, ST_INFO 0 3, 0, 3, 0, 0⟩]
    section_count := 4
    label_count := 0
    glabel_count := 0
    strtab := [] }

/-- The label re-declaration scan (pasm.c:446-449): fold `i` over `[0, n)`,
remembering `i + 1` for the last `strtab[i]` equal to the name. -/
def findAvail (strtab : List String) (s : String) (n : Nat) : Nat :=
  (List.range n).foldl (fun a i => if strtab.getD i "" = s then i + 1 else a) 0

/-- In-place update of `syms[k].st_shndx` (pasm.c:452); out-of-range `k` is
a no-op (the C code never reaches that case). -/
def setShndx : List Sym → Nat → Nat → List Sym
  | [], _, _ => []
  | s :: l, 0, v => { s with st_shndx := v } :: l
  | s :: l, k+1, v => s :: setShndx l k v

/-- The LABEL case of parse_x86_64 (pasm.c:441-472): if the name is already in
the string table, overwrite that symbol's `st_shndx` with the 1-based match
position; otherwise append a new local symbol (st_name 1, st_shndx
`label_count + 1`) and the name. -/
def handleLabel (obj : Obj) (s : String) : Obj :=
  let available := findAvail obj.strtab s (obj.label_count + obj.glabel_count)
  if available ≠ 0 then
    { obj with syms := setShndx obj.syms (obj.section_count + available - 1) available }
  else
    { obj with
      syms := obj.syms ++ [⟨0x01, ST_INFO 0 0, 0, obj.label_count + 1, 0, 0⟩]
      strtab := obj.strtab ++ [s]
      label_count := obj.label_count + 1 }

/-- The `.globl` case of parse_x86_64 (pasm.c:500-513): unconditionally append
a global symbol (st_name 1, st_shndx 0) and the name. -/
def handleGlobl (obj : Obj) (s : String) : Obj :=
  { obj with
    syms := obj.syms ++ [⟨0x01, ST_INFO 1 0, 0, 0, 0, 0⟩]
    strtab := obj.strtab ++ [s]
    glabel_count := obj.glabel_count + 1 }

/-- The mnemonic dispatch chain of parse_x86_64 (pasm.c:380-433), as the byte
sequence appended for each recognized mnemonic. -/
def insBytes (s : String) : Option (List Nat) :=
  if s = "leave" || s = "leaveq" then some [0xC9]
  else if s = "nop" then some [0x90]
  else if s = "ret" || s = "retq" then some [0xC3]
  else if s = "syscall" then some [0x0F, 0x05]
  else none

/-- A mnemonic line must end in a newline or end-of-file (pasm.c:389 etc.). -/
def expectEnd : TokType → Bool
  | TokType.NEWLINE => true
  | TokType.ENDOFFILE => true
  | _ => false

/-- parse_x86_64 (pasm.c:351-537) with explicit fuel (the C loop terminates
because the cursor strictly advances on every token except end-of-file;
`src.length + 1` units always suffice).  On the trailing-token check after a
mnemonic C returns 1 with no message; the message used here is the spec's
name for that error. -/
def parse : Nat → List Char → Nat → Obj → Except String Obj
  | 0, _, _, _ => Except.error "fuel exhausted"
  | f+1, src, i, obj =>
    match lex src i with
    | Except.error e => Except.error e
    | Except.ok (t, i') =>
      match t.type with
      | TokType.ID =>
        match insBytes (tokText src t) with
        | some bs =>
          let obj' := { obj with assembly := obj.assembly ++ bs }
          match lex src i' with
          | Except.error e => Except.error e
          | Except.ok (t2, i2) =>
            if expectEnd t2.type then parse f src i2 obj'
            else Except.error "junk at end of line"
        | none =>
          Except.error ("Error: unknown instruction: `" ++ tokText src t ++ "`")
      | TokType.LABEL => parse f src i' (handleLabel obj (tokText src t))
      | TokType.DIRECTIVE =>
        if tokText src t = ".globl" then
          match lex src i' with
          | Except.error e => Except.error e
          | Except.ok (t2, i2) =>
            if t2.type = TokType.ID then
              match lex src i2 with
              | Except.error e => Except.error e
              | Except.ok (t3, i3) =>
                if expectEnd t3.type then parse f src i3 (handleGlobl obj (tokText src t2))
                else Except.error "Error: junk at end of line after .globl."
            else Except.error "Error: .globl directive expected a symbol."
        else Except.error ("Error: unknown pseudo-op: `" ++ tokText src t ++ "`")
      | TokType.ENDOFFILE => Except.ok obj
      | _ => parse f src i' obj

/-- ALIGNTO8 (pasm.c:26). -/
def ALIGNTO8 (x : Nat) : Nat := x + (8 - x % 8) * (if x % 8 = 0 then 0 else 1)

/-- Elf64_Shdr as `Nat`s. -/
structure Shdr where
  sh_name : Nat
  sh_type : Nat
  sh_flags : Nat
  sh_addr : Nat
  sh_offset : Nat
  sh_size : Nat
  sh_link : Nat
  sh_info : Nat
  sh_addralign : Nat
  sh_entsize : Nat
deriving DecidableEq, Repr

def shdrNull : Shdr := ⟨0, 0, 0, 0, 0, 0, 0, 0, 0, 0⟩

/-- Sum of `strlen + 1` over the string table, plus the leading NUL
(pasm.c:211-214 and 569-572). -/
def strtabLen (strtab : List String) : Nat :=
  1 + (strtab.map (fun s => s.length + 1)).sum

/-- default_shdrtabs_x86_64 (pasm.c:166-242): the seven fixed section headers.
Section types/flags: PROGBITS=1, SYMTAB=2, STRTAB=3, NOBITS=8;
WRITE=1, ALLOC=2, EXECINSTR=4.  `sizeof(Elf64_Ehdr)` is 64,
`sizeof(Elf64_Sym)` is 24; the symtab size is the hardcoded
`sizeof(Elf64_Sym) * 5` of pasm.c:205, and the shstrtab size the hardcoded
`sizeof(shstrtab) - 1 - 4 = 44` of pasm.c:226. -/
def default_shdrtabs (obj : Obj) : List Shdr :=
  let shdr_null := shdrNull
  let shdr_text : Shdr := ⟨0x1b, 1, 6, 0, 64, obj.assembly.length, 0, 0, 1, 0⟩
  let o1 := 64 + shdr_text.sh_size
  let shdr_data : Shdr := ⟨0x21, 1, 3, 0, o1, 0, 0, 0, 1, 0⟩
  let o2 := o1 + shdr_data.sh_size
  let shdr_bss : Shdr := ⟨0x27, 8, 3, 0, o2, 0, 0, 0, 1, 0⟩
  let o3 := o2 + shdr_bss.sh_size
  let o4 := if o3 % 8 = 0 then o3 else o3 + (8 - o3 % 8)
  let shdr_symtab : Shdr :=
    ⟨0x01, 2, 0, 0, o4, 24 * 5, 5, obj.section_count + obj.label_count, 8, 0x18⟩
  let o5 := o4 + shdr_symtab.sh_size
  let shdr_strtab : Shdr := ⟨0x09, 3, 0, 0, o5, strtabLen obj.strtab, 0, 0, 1, 0⟩
  let o6 := o5 + shdr_strtab.sh_size
  let shdr_shstrtab : Shdr := ⟨0x11, 3, 0, 0, o6, 44, 0, 0, 1, 0⟩
  [shdr_null, shdr_text, shdr_data, shdr_bss, shdr_symtab, shdr_strtab, shdr_shstrtab]

/-- Elf64_Ehdr as `Nat`s (`e_ident` as its 16 bytes). -/
structure Ehdr where
  e_ident : List Nat
  e_type : Nat
  e_machine : Nat
  e_version : Nat
  e_entry : Nat
  e_phoff : Nat
  e_shoff : Nat
  e_flags : Nat
  e_ehsize : Nat
  e_phentsize : Nat
  e_phnum : Nat
  e_shentsize : Nat
  e_shnum : Nat
  e_shstrndx : Nat
deriving DecidableEq, Repr

/-- The ELF header built by assemble_x86_64 (pasm.c:131-143), as a function of
the accumulated code size.  Note the hardcoded `e_shoff = 240 + ALIGNTO8(...)`
and `e_shstrndx = 6`. -/
def mkEhdr (assembly_size : Nat) : Ehdr :=
  { e_ident := [0x7f, 0x45, 0x4c, 0x46, 2, 1, 1, 0, 0, 0, 0, 0, 0, 0, 0, 0]
    e_type := 1
    e_machine := 62
    e_version := 1
    e_entry := 0
    e_phoff := 0
    e_shoff := 240 + ALIGNTO8 assembly_size
    e_flags := 0
    e_ehsize := 64
    e_phentsize := 0
    e_phnum := 0
    e_shentsize := 64
    e_shnum := 7
    e_shstrndx := 6 }

/-- assemble_x86_64 (pasm.c:112-164) up to the point where the file is
written: parse, then build the header and the section header table. -/
def assemble (src : List Char) : Except String (Ehdr × Obj × List Shdr) :=
  match parse (src.length + 1) src 0 default_symtabs with
  | Except.error e => Except.error e
  | Except.ok obj => Except.ok (mkEhdr obj.assembly.length, obj, default_shdrtabs obj)

/-- Little-endian serialization of `n` into `w` bytes. -/
def leBytes (w n : Nat) : List Nat := (List.range w).map (fun k => n / 256 ^ k % 256)

/-- Byte layout of Elf64_Ehdr (64 bytes). -/
def serEhdr (e : Ehdr) : List Nat :=
  e.e_ident ++ leBytes 2 e.e_type ++ leBytes 2 e.e_machine ++ leBytes 4 e.e_version
  ++ leBytes 8 e.e_entry ++ leBytes 8 e.e_phoff ++ leBytes 8 e.e_shoff
  ++ leBytes 4 e.e_flags ++ leBytes 2 e.e_ehsize ++ leBytes 2 e.e_phentsize
  ++ leBytes 2 e.e_phnum ++ leBytes 2 e.e_shentsize ++ leBytes 2 e.e_shnum
  ++ leBytes 2 e.e_shstrndx

/-- Byte layout of Elf64_Sym (24 bytes). -/
def serSym (s : Sym) : List Nat :=
  leBytes 4 s.st_name ++ leBytes 1 s.st_info ++ leBytes 1 s.st_other
  ++ leBytes 2 s.st_shndx ++ leBytes 8 s.st_value ++ leBytes 8 s.st_size

/-- Byte layout of Elf64_Shdr (64 bytes). -/
def serShdr (h : Shdr) : List Nat :=
  leBytes 4 h.sh_name ++ leBytes 4 h.sh_type ++ leBytes 8 h.sh_flags
  ++ leBytes 8 h.sh_addr ++ leBytes 8 h.sh_offset ++ leBytes 8 h.sh_size
  ++ leBytes 4 h.sh_link ++ leBytes 4 h.sh_info ++ leBytes 8 h.sh_addralign
  ++ leBytes 8 h.sh_entsize

/-- The 48 bytes of the fixed `shstrtab` blob written to the file
(pasm.c:76, written as `sizeof(shstrtab) - 1` bytes at pasm.c:612). -/
def shstrtabBytes : List Nat :=
  (String.mk (['\x00'] ++ ".symtab".data ++ ['\x00'] ++ ".strtab".data ++ ['\x00']
    ++ ".shstrtab".data ++ ['\x00'] ++ ".text".data ++ ['\x00'] ++ ".data".data
    ++ ['\x00'] ++ ".bss".data ++ ['\x00', '\x00', '\x00', '\x00', '\x00'])).data.map Char.toNat

/-- write_file_x86_64 (pasm.c:561-626) as the byte sequence written: header,
code padded with zeros to an 8-byte boundary, all `4 + labels + globals`
symbol entries, the leading strtab NUL and each name NUL-terminated, the fixed
shstrtab blob, and the seven section headers. -/
def write_file (e : Ehdr) (obj : Obj) (shdrs : List Shdr) : List Nat :=
  serEhdr e
  ++ (obj.assembly ++ List.replicate (ALIGNTO8 obj.assembly.length - obj.assembly.length) 0)
  ++ (obj.syms.map serSym).flatten
  ++ ([0] ++ (obj.strtab.map (fun s => s.data.map Char.toNat ++ [0])).flatten)
  ++ shstrtabBytes
  ++ (shdrs.map serShdr).flatten

/-- The complete object-file bytes produced for a source, or the error. -/
def assembleBytes (src : List Char) : Except String (List Nat) :=
  match assemble src with
  | Except.error e => Except.error e
  | Except.ok (e, obj, shdrs) => Except.ok (write_file e obj shdrs)

/-! ### Derived notions used by the claims -/

/-- ELF64_ST_BIND: the binding half of `st_info`. -/
def ST_BIND (i : Nat) : Nat := i / 16

/-- Number of STB_LOCAL symbols in a symbol list. -/
def localCount (syms : List Sym) : Nat :=
  (syms.filter (fun s => ST_BIND s.st_info = 0)).length

/-- The mnemonic table as documented by the spec (claim C6). -/
def mnTable : List (String × List Nat) :=
  [("nop", [0x90]), ("ret", [0xC3]), ("retq", [0xC3]),
   ("leave", [0xC9]), ("leaveq", [0xC9]), ("syscall", [0x0F, 0x05])]

/-- Characterization of a source consisting solely of whitespace, comments
and newlines (claim C9).  The flag is `true` inside a comment body, where any
character other than a newline (or a NUL, which would end the file early) may
occur. -/
def trivAux : Bool → List Char → Bool
  | _, [] => true
  | false, c :: l =>
    if c = '\n' then trivAux false l
    else if c = ';' then trivAux true l
    else if c = '/' then
      match l with
      | d :: l2 => d = '/' && trivAux true l2
      | [] => false
    else isblankC c && trivAux false l
  | true, c :: l =>
    if c = '\n' then trivAux false l else (c != '\x00') && trivAux true l

/-- A source made only of whitespace, comments and newlines. -/
def trivSrc (src : List Char) : Bool := trivAux false src

/-- Facts maintained by `parse` over the object state: the four fixed section
symbols stay in place, every symbol is accounted local exactly when it is one
of the four section symbols or a label, and every symbol appended by the
parser carries `st_name = 1`. -/
def ParseInv (obj : Obj) : Prop :=
  obj.section_count = 4 ∧ 4 ≤ obj.syms.length
  ∧ localCount obj.syms = obj.section_count + obj.label_count
  ∧ ∀ s ∈ obj.syms.drop 4, s.st_name = 1

/-- The object state produced for the source `.globl foo\nbar:\n`: the global
symbol for `foo` is appended before the local label symbol for `bar`. -/
def objGloblBar : Obj :=
  { assembly := []
    syms := default_symtabs.syms ++ [⟨1, 16, 0, 0, 0, 0⟩, ⟨1, 0, 0, 1, 0, 0⟩]
    section_count := 4
    label_count := 1
    glabel_count := 1
    strtab := ["foo", "bar"] }

/-- The object state produced for the source `x:\n`. -/
def objLabelX : Obj :=
  { assembly := []
    syms := default_symtabs.syms ++ [⟨1, 0, 0, 1, 0, 0⟩]
    section_count := 4
    label_count := 1
    glabel_count := 0
    strtab := ["x"] }

/-- The object state produced for the source `.globl g\nb:\nb:\n`: the
re-declaration of `b` has overwritten its `st_shndx` with 2, the 1-based
string-table position of `b`. -/
def objRedecl : Obj :=
  { assembly := []
    syms := default_symtabs.syms ++ [⟨1, 16, 0, 0, 0, 0⟩, ⟨1, 0, 0, 2, 0, 0⟩]
    section_count := 4
    label_count := 1
    glabel_count := 1
    strtab := ["g", "b"] }

/-- The object state just before the second `b:` of `.globl g\nb:\nb:\n` is
processed. -/
def objPreRedecl : Obj :=
  { assembly := []
    syms := default_symtabs.syms ++ [⟨1, 16, 0, 0, 0, 0⟩, ⟨1, 0, 0, 1, 0, 0⟩]
    section_count := 4
    label_count := 1
    glabel_count := 1
    strtab := ["g", "b"] }

/-- The object state produced for the source `ret\n`. -/
def objRet : Obj := { default_symtabs with assembly := [0xC3] }

/-! ### Basic lemmas about the buffer model -/

theorem getC_headD (src : List Char) (i : Nat) :
    getC src i = (src.drop i).headD '\x00' := by
  induction src generalizing i with
  | nil => cases i <;> rfl
  | cons c l ih =>
    cases i with
    | zero => rfl
    | succ n => exact ih n

theorem drop_succ_of_drop_cons {src l : List Char} {c : Char} {i : Nat}
    (h : src.drop i = c :: l) : src.drop (i+1) = l := by
  rw [← List.tail_drop, h]; rfl

theorem getC_of_drop_cons {src l : List Char} {c : Char} {i : Nat}
    (h : src.drop i = c :: l) : getC src i = c := by
  rw [getC_headD, h]; rfl

theorem lt_length_of_drop_cons {src l : List Char} {c : Char} {i : Nat}
    (h : src.drop i = c :: l) : i < src.length := by
  by_contra hn
  rw [List.drop_eq_nil_iff.mpr (by omega)] at h
  exact List.noConfusion h

theorem getC_ne_nul_lt {src : List Char} {i : Nat}
    (h : getC src i ≠ '\x00') : i < src.length := by
  by_contra hn
  rw [getC_headD, List.drop_eq_nil_iff.mpr (by omega)] at h
  exact h rfl

/-! ### Lemmas about `setShndx` -/

theorem setShndx_length (l : List Sym) (k v : Nat) :
    (setShndx l k v).length = l.length := by
  induction l generalizing k with
  | nil => rfl
  | cons s l ih =>
    cases k with
    | zero => rfl
    | succ k => simp [setShndx, ih]

theorem setShndx_map_name (l : List Sym) (k v : Nat) :
    (setShndx l k v).map Sym.st_name = l.map Sym.st_name := by
  induction l generalizing k with
  | nil => rfl
  | cons s l ih =>
    cases k with
    | zero => rfl
    | succ k => simp [setShndx, ih]

theorem localCount_setShndx (l : List Sym) (k v : Nat) :
    localCount (setShndx l k v) = localCount l := by
  induction l generalizing k with
  | nil => rfl
  | cons s l ih =>
    cases k with
    | zero =>
      by_cases hd : ST_BIND s.st_info = 0 <;>
        simp [setShndx, localCount, List.filter_cons, hd]
    | succ k =>
      have hrec := ih k
      simp only [localCount] at hrec
      by_cases hd : ST_BIND s.st_info = 0 <;>
        simp [setShndx, localCount, List.filter_cons, hd, hrec]

theorem localCount_append (l₁ l₂ : List Sym) :
    localCount (l₁ ++ l₂) = localCount l₁ + localCount l₂ := by
  simp [localCount, List.filter_append]

theorem setShndx_getD_eq (l : List Sym) (k v : Nat) (h : k < l.length) :
    (setShndx l k v).getD k symNull = { l.getD k symNull with st_shndx := v } := by
  induction l generalizing k with
  | nil => simp at h
  | cons s l ih =>
    cases k with
    | zero => rfl
    | succ k =>
      simp only [setShndx, List.getD_cons_succ]
      exact ih k (by simpa using h)

theorem setShndx_getD_ne (l : List Sym) (k v k' : Nat) (h : k' ≠ k) :
    (setShndx l k v).getD k' symNull = l.getD k' symNull := by
  induction l generalizing k k' with
  | nil => rfl
  | cons s l ih =>
    cases k with
    | zero =>
      cases k' with
      | zero => exact absurd rfl h
      | succ k' => rfl
    | succ k =>
      cases k' with
      | zero => rfl
      | succ k' =>
        simp only [setShndx, List.getD_cons_succ]
        exact ih k k' (by omega)

/-! ### The parse invariant shared by claims C2 and C10 -/

theorem names_drop_inv {l₁ l₂ : List Sym}
    (hmap : l₁.map Sym.st_name = l₂.map Sym.st_name)
    (h : ∀ s ∈ l₂.drop 4, s.st_name = 1) : ∀ s ∈ l₁.drop 4, s.st_name = 1 := by
  intro s hs
  have h1 : s.st_name ∈ (l₁.drop 4).map Sym.st_name := List.mem_map_of_mem _ hs
  rw [List.map_drop, hmap, ← List.map_drop] at h1
  obtain ⟨t, ht, hts⟩ := List.mem_map.mp h1
  rw [← hts]
  exact h t ht

theorem handleLabel_inv (obj : Obj) (s : String) (h : ParseInv obj) :
    ParseInv (handleLabel obj s) := by
  obtain ⟨h1, h2, h3, h4⟩ := h
  simp only [handleLabel]
  split
  · exact ⟨h1, by simpa [setShndx_length] using h2,
      by simpa [localCount_setShndx] using h3,
      names_drop_inv (setShndx_map_name _ _ _) h4⟩
  · refine ⟨h1, by simp; omega, ?_, ?_⟩
    · simp only [localCount_append, h3]
      have : localCount [(⟨0x01, ST_INFO 0 0, 0, obj.label_count + 1, 0, 0⟩ : Sym)] = 1 := by
        simp [localCount, List.filter_cons, ST_BIND, ST_INFO]
      simp [this]
      omega
    · intro t ht
      rw [List.drop_append_of_le_length h2] at ht
      rcases List.mem_append.mp ht with hl | hr
      · exact h4 t hl
      · simp at hr; rw [hr]

theorem handleGlobl_inv (obj : Obj) (s : String) (h : ParseInv obj) :
    ParseInv (handleGlobl obj s) := by
  obtain ⟨h1, h2, h3, h4⟩ := h
  unfold handleGlobl
  refine ⟨h1, by simp; omega, ?_, ?_⟩
  · simp only [localCount_append, h3]
    have : localCount [(⟨0x01, ST_INFO 1 0, 0, 0, 0, 0⟩ : Sym)] = 0 := by decide
    simp [this]
  · intro t ht
    rw [List.drop_append_of_le_length h2] at ht
    rcases List.mem_append.mp ht with hl | hr
    · exact h4 t hl
    · simp at hr; rw [hr]

theorem parseInv_default : ParseInv default_symtabs := by
  refine ⟨rfl, by decide, by decide, ?_⟩
  intro s hs
  simp [default_symtabs] at hs

theorem parse_inv (f : Nat) (src : List Char) :
    ∀ (i : Nat) (obj obj' : Obj),
      parse f src i obj = Except.ok obj' → ParseInv obj → ParseInv obj' := by
  induction f with
  | zero => intro i obj obj' h _; simp [parse] at h
  | succ f ih =>
    intro i obj obj' h hinv
    simp only [parse] at h
    cases hlex : lex src i with
    | error e => rw [hlex] at h; simp at h
    | ok p =>
      obtain ⟨t, i'⟩ := p
      rw [hlex] at h
      obtain ⟨ty, len, st⟩ := t
      cases ty with
      | ID =>
        dsimp only at h
        cases hins : insBytes (tokText src ⟨TokType.ID, len, st⟩) with
        | none => rw [hins] at h; simp at h
        | some bs =>
          rw [hins] at h
          dsimp only at h
          cases hlex2 : lex src i' with
          | error e => rw [hlex2] at h; simp at h
          | ok p2 =>
            obtain ⟨t2, i2⟩ := p2
            rw [hlex2] at h
            dsimp only at h
            by_cases hex : expectEnd t2.type = true
            · rw [if_pos hex] at h
              exact ih i2 _ _ h hinv
            · rw [if_neg hex] at h; simp at h
      | LABEL =>
        dsimp only at h
        exact ih i' _ _ h (handleLabel_inv _ _ hinv)
      | DIRECTIVE =>
        dsimp only at h
        by_cases hgl : tokText src ⟨TokType.DIRECTIVE, len, st⟩ = ".globl"
        · rw [if_pos hgl] at h
          cases hlex2 : lex src i' with
          | error e => rw [hlex2] at h; simp at h
          | ok p2 =>
            obtain ⟨t2, i2⟩ := p2
            rw [hlex2] at h
            dsimp only at h
            by_cases hid : t2.type = TokType.ID
            · rw [if_pos hid] at h
              cases hlex3 : lex src i2 with
              | error e => rw [hlex3] at h; simp at h
              | ok p3 =>
                obtain ⟨t3, i3⟩ := p3
                rw [hlex3] at h
                dsimp only at h
                by_cases hex : expectEnd t3.type = true
                · rw [if_pos hex] at h
                  exact ih i3 _ _ h (handleGlobl_inv _ _ hinv)
                · rw [if_neg hex] at h; simp at h
            · rw [if_neg hid] at h; simp at h
        · rw [if_neg hgl] at h; simp at h
      | CONSTANT => exact ih i' _ _ h hinv
      | REGISTER => exact ih i' _ _ h hinv
      | COMMA => exact ih i' _ _ h hinv
      | NEWLINE => exact ih i' _ _ h hinv
      | ENDOFFILE =>
        dsimp only at h
        injection h with h
        subst h
        exact hinv

theorem assemble_eq (src : List Char) (e : Ehdr) (obj : Obj) (shdrs : List Shdr)
    (h : assemble src = Except.ok (e, obj, shdrs)) :
    parse (src.length + 1) src 0 default_symtabs = Except.ok obj
    ∧ e = mkEhdr obj.assembly.length ∧ shdrs = default_shdrtabs obj := by
  unfold assemble at h
  cases hp : parse (src.length + 1) src 0 default_symtabs with
  | error e' => rw [hp] at h; simp at h
  | ok o =>
    rw [hp] at h
    simp only [Except.ok.injEq, Prod.mk.injEq] at h
    obtain ⟨he, ho, hs⟩ := h
    subst ho
    exact ⟨rfl, he.symm, hs.symm⟩

/-! ### Serialization length lemmas -/

theorem leBytes_length (w n : Nat) : (leBytes w n).length = w := by
  simp [leBytes]

theorem serSym_length (s : Sym) : (serSym s).length = 24 := by
  simp [serSym, leBytes_length]

theorem serEhdr_mkEhdr_length (n : Nat) : (serEhdr (mkEhdr n)).length = 64 := by
  simp [serEhdr, mkEhdr, leBytes_length]

theorem symsFlat_length (syms : List Sym) :
    ((syms.map serSym).flatten).length = 24 * syms.length := by
  induction syms with
  | nil => rfl
  | cons s l ih =>
    simp only [List.map_cons, List.flatten_cons, List.length_append,
      serSym_length, ih, List.length_cons]
    ring

theorem strtabBlob_length (strtab : List String) :
    ([0] ++ (strtab.map (fun s : String => s.data.map Char.toNat ++ [0])).flatten).length
      = strtabLen strtab := by
  induction strtab with
  | nil => rfl
  | cons s l ih =>
    simp only [List.length_append, List.length_cons, List.length_nil,
      List.map_cons, List.flatten_cons, List.length_map, strtabLen,
      List.sum_cons, String.length] at *
    omega

theorem shstrtabBytes_length : shstrtabBytes.length = 48 := by decide

theorem ALIGNTO8_ge (n : Nat) : n ≤ ALIGNTO8 n := Nat.le_add_right _ _

theorem asmPad_length (a : List Nat) :
    (a ++ List.replicate (ALIGNTO8 a.length - a.length) 0).length
      = ALIGNTO8 a.length := by
  have h := ALIGNTO8_ge a.length
  simp only [List.length_append, List.length_replicate]
  omega

/-! ### Claim C1 -/

/-- C1 (amended): for every successful run the produced `e_shoff` equals
`240 + align8(code_size)` — the constant 240 of pasm.c:140, not the 64-byte
ELF header size — while the seven fixed section headers are actually written
as the final bytes of the file, at offset `64 + align8(code_size) +
24·(symbol count) + strtab_size + 48`; the two agree only when
`24·(symbol count) + strtab_size = 128`. -/
theorem c1_shoff_and_shdr_location (src : List Char) (e : Ehdr) (obj : Obj)
    (shdrs : List Shdr) (h : assemble src = Except.ok (e, obj, shdrs)) :
    e.e_shoff = 240 + ALIGNTO8 obj.assembly.length
    ∧ (write_file e obj shdrs).drop
        (64 + ALIGNTO8 obj.assembly.length + 24 * obj.syms.length
         + strtabLen obj.strtab + 48)
      = (shdrs.map serShdr).flatten := by
  obtain ⟨hp, he, hs⟩ := assemble_eq src e obj shdrs h
  subst he
  refine ⟨rfl, ?_⟩
  unfold write_file
  rw [show serEhdr (mkEhdr obj.assembly.length)
        ++ (obj.assembly
            ++ List.replicate (ALIGNTO8 obj.assembly.length - obj.assembly.length) 0)
        ++ (obj.syms.map serSym).flatten
        ++ ([0] ++ (obj.strtab.map (fun s : String => s.data.map Char.toNat ++ [0])).flatten)
        ++ shstrtabBytes
        ++ (shdrs.map serShdr).flatten
      = (serEhdr (mkEhdr obj.assembly.length)
        ++ (obj.assembly
            ++ List.replicate (ALIGNTO8 obj.assembly.length - obj.assembly.length) 0)
        ++ (obj.syms.map serSym).flatten
        ++ ([0] ++ (obj.strtab.map (fun s : String => s.data.map Char.toNat ++ [0])).flatten)
        ++ shstrtabBytes)
        ++ (shdrs.map serShdr).flatten from by simp [List.append_assoc]]
  apply List.drop_left'
  rw [List.length_append, List.length_append, List.length_append,
    List.length_append, serEhdr_mkEhdr_length, asmPad_length, symsFlat_length,
    strtabBlob_length, shstrtabBytes_length]

/-- C1 witness: the amended theorem evaluated on the source `ret`, whose code
section is the single byte C3. -/
theorem c1_witness :
    assemble ("ret\n".data) = Except.ok (mkEhdr 1, objRet, default_shdrtabs objRet)
    ∧ (mkEhdr 1).e_shoff = 240 + ALIGNTO8 objRet.assembly.length
    ∧ (write_file (mkEhdr 1) objRet (default_shdrtabs objRet)).drop
        (64 + ALIGNTO8 objRet.assembly.length + 24 * objRet.syms.length
         + strtabLen objRet.strtab + 48)
      = ((default_shdrtabs objRet).map serShdr).flatten := by
  have h := c1_shoff_and_shdr_location ("ret\n".data) (mkEhdr 1) objRet
    (default_shdrtabs objRet) rfl
  exact ⟨rfl, h.1, h.2⟩



/-- C1 counterexample: on the empty source the run succeeds with an empty code
section, the ELF header occupies 64 bytes, `align8(0) = 0`, and yet the
produced `e_shoff` is 240, not `64 + 0` — so `e_shoff` does not equal
ELF-header-size plus the aligned code-section size. -/
theorem c1_counterexample :
    assemble [] = Except.ok (mkEhdr 0, default_symtabs, default_shdrtabs default_symtabs)
    ∧ (serEhdr (mkEhdr 0)).length = 64
    ∧ ALIGNTO8 default_symtabs.assembly.length = 0
    ∧ (mkEhdr 0).e_shoff = 240
    ∧ (240 : Nat) ≠ 64 + 0 :=
  ⟨rfl, by decide, by decide, rfl, by decide⟩

/-! ### Claim C2 -/

/-- C2 counterexample: for the source `.globl foo\nbar:\n` the emitted symbol
array keeps declaration order, so the global symbol for `foo` (index 4) comes
before the local label symbol for `bar` (index 5) — the array is not ordered
with every local symbol before every global one. -/
theorem c2_counterexample :
    assemble (".globl foo\nbar:\n".data)
      = Except.ok (mkEhdr 0, objGloblBar, default_shdrtabs objGloblBar)
    ∧ ST_BIND (objGloblBar.syms.getD 4 symNull).st_info = 1
    ∧ ST_BIND (objGloblBar.syms.getD 5 symNull).st_info = 0 :=
  ⟨rfl, by decide, by decide⟩

/-- C2 (amended): in every produced object file the `.symtab` header's
`sh_info` equals the number of STB_LOCAL symbols in the emitted symbol array
(the four fixed section symbols plus the labels); the array itself, however,
is emitted in declaration order, not local-first. -/
theorem c2_sh_info_counts_locals (src : List Char) (e : Ehdr) (obj : Obj)
    (shdrs : List Shdr) (h : assemble src = Except.ok (e, obj, shdrs)) :
    (shdrs.getD 4 shdrNull).sh_info = localCount obj.syms := by
  obtain ⟨hp, he, hs⟩ := assemble_eq src e obj shdrs h
  have hinv := parse_inv _ src 0 default_symtabs obj hp parseInv_default
  obtain ⟨h1, h2, h3, h4⟩ := hinv
  subst hs
  show obj.section_count + obj.label_count = localCount obj.syms
  omega

/-- C2 witness: the amended theorem evaluated on `.globl foo\nbar:\n`, whose
symtab header records `sh_info = 5` and whose symbol array holds 5 locals. -/
theorem c2_witness :
    assemble (".globl foo\nbar:\n".data)
      = Except.ok (mkEhdr 0, objGloblBar, default_shdrtabs objGloblBar)
    ∧ ((default_shdrtabs objGloblBar).getD 4 shdrNull).sh_info
        = localCount objGloblBar.syms :=
  ⟨rfl, c2_sh_info_counts_locals (".globl foo\nbar:\n".data) (mkEhdr 0) objGloblBar
    (default_shdrtabs objGloblBar) rfl⟩

/-! ### Claim C3 -/

/-- C3 counterexample: in `.globl g\nb:\nb:\n` the label `b` is declared
twice.  The second declaration overwrites the symbol's `st_shndx` with 2 (the
1-based position of `b` in the string table), although the only section the
assembler ever assembles into is `.text`, whose header index is 1 — so the
re-declaration does not set the section index to the current section. -/
theorem c3_counterexample :
    assemble (".globl g\nb:\nb:\n".data)
      = Except.ok (mkEhdr 0, objRedecl, default_shdrtabs objRedecl)
    ∧ (objRedecl.syms.getD 5 symNull).st_shndx = 2
    ∧ ((default_shdrtabs objRedecl).getD 1 shdrNull).sh_name = 0x1b
    ∧ objRedecl.strtab = ["g", "b"]
    ∧ (2 : Nat) ≠ 1 :=
  ⟨rfl, by decide, by decide, by decide, by decide⟩

/-- C3 (amended): processing a label token whose name already occurs in the
string table adds no symbol and no string-table entry (re-declaration is
idempotent on both), leaves all other symbols untouched, and overwrites the
matched symbol's `st_shndx` with the 1-based string-table position of the
name's last occurrence — not with the current section's index. -/
theorem c3_redeclaration (obj : Obj) (s : String) (a : Nat)
    (ha : findAvail obj.strtab s (obj.label_count + obj.glabel_count) = a)
    (hnz : a ≠ 0) (hlt : obj.section_count + a - 1 < obj.syms.length) :
    (handleLabel obj s).strtab = obj.strtab
    ∧ (handleLabel obj s).syms.length = obj.syms.length
    ∧ (handleLabel obj s).label_count = obj.label_count
    ∧ (handleLabel obj s).glabel_count = obj.glabel_count
    ∧ (handleLabel obj s).syms.getD (obj.section_count + a - 1) symNull
        = { obj.syms.getD (obj.section_count + a - 1) symNull with st_shndx := a }
    ∧ ∀ k, k ≠ obj.section_count + a - 1 →
        (handleLabel obj s).syms.getD k symNull = obj.syms.getD k symNull := by
  simp only [handleLabel, ha]
  rw [if_pos hnz]
  exact ⟨rfl, setShndx_length _ _ _, rfl, rfl, setShndx_getD_eq _ _ _ hlt,
    fun k hk => setShndx_getD_ne _ _ _ _ hk⟩

/-- C3 witness: the amended theorem evaluated at the state just before the
second `b:` of `.globl g\nb:\nb:\n`; the match position is 2 and symbol 5 is
updated to `st_shndx = 2`. -/
theorem c3_witness :
    findAvail objPreRedecl.strtab "b"
        (objPreRedecl.label_count + objPreRedecl.glabel_count) = 2
    ∧ (handleLabel objPreRedecl "b").strtab = objPreRedecl.strtab
    ∧ (handleLabel objPreRedecl "b").syms.length = objPreRedecl.syms.length
    ∧ (handleLabel objPreRedecl "b").syms.getD 5 symNull
        = { objPreRedecl.syms.getD 5 symNull with st_shndx := 2 } := by
  have h := c3_redeclaration objPreRedecl "b" 2 (by decide) (by decide) (by decide)
  exact ⟨by decide, h.1, h.2.1, h.2.2.2.2.1⟩

/-! ### Claim C4 -/

/-- C4: the `.symtab` header always records `sh_size = sizeof(Elf64_Sym) * 5`
(pasm.c:205), so `sh_size / sh_entsize` is 5 for every run, while the file
receives one 24-byte entry per symbol actually in the array —
`4 + label_count + glabel_count` of them.  On the empty source the array has
4 entries but the header still claims 5: the header contradicts the bytes the
same program writes, as the claim's `4 + labels + globals` count requires. -/
theorem c4_code_bug_eval :
    assemble [] = Except.ok (mkEhdr 0, default_symtabs, default_shdrtabs default_symtabs)
    ∧ ((default_shdrtabs default_symtabs).getD 4 shdrNull).sh_size = 120
    ∧ ((default_shdrtabs default_symtabs).getD 4 shdrNull).sh_entsize = 24
    ∧ (120 : Nat) / 24 = 5
    ∧ default_symtabs.syms.length
        = default_symtabs.section_count + default_symtabs.label_count
          + default_symtabs.glabel_count
    ∧ ((default_symtabs.syms.map serSym).flatten).length = 24 * 4
    ∧ (5 : Nat) ≠ 4 :=
  ⟨rfl, by decide, by decide, by decide, by decide, by decide, by decide⟩

/-! ### Claim C5 -/

/-- C5 counterexample: on the empty source the produced header has
`e_shstrndx = 6`, not 5; index 5 of the section-header array is `.strtab`
(name offset 9) and `.shstrtab` (name offset 0x11) sits at index 6. -/
theorem c5_counterexample :
    assemble [] = Except.ok (mkEhdr 0, default_symtabs, default_shdrtabs default_symtabs)
    ∧ (mkEhdr 0).e_shstrndx = 6
    ∧ ((default_shdrtabs default_symtabs).getD 5 shdrNull).sh_name = 0x09
    ∧ ((default_shdrtabs default_symtabs).getD 6 shdrNull).sh_name = 0x11
    ∧ (6 : Nat) ≠ 5 :=
  ⟨rfl, rfl, by decide, by decide, by decide⟩

/-- C5 (amended): every produced object file has `e_shnum = 7` and
`e_shstrndx = 6`, where 6 is the index of the `.shstrtab` header in the
zero-based array laid out in the fixed order null, `.text`, `.data`, `.bss`,
`.symtab`, `.strtab`, `.shstrtab` (name offset 0x11 resolves to `.shstrtab`
in the fixed name blob). -/
theorem c5_header_counts (src : List Char) (e : Ehdr) (obj : Obj)
    (shdrs : List Shdr) (h : assemble src = Except.ok (e, obj, shdrs)) :
    e.e_shnum = 7 ∧ e.e_shstrndx = 6 ∧ shdrs.length = 7
    ∧ shdrs.map Shdr.sh_name = [0, 0x1b, 0x21, 0x27, 0x01, 0x09, 0x11]
    ∧ shdrs.map Shdr.sh_type = [0, 1, 1, 8, 2, 3, 3]
    ∧ (shstrtabBytes.drop 0x11).take 10 = ".shstrtab".data.map Char.toNat ++ [0] := by
  obtain ⟨hp, he, hs⟩ := assemble_eq src e obj shdrs h
  subst he; subst hs
  exact ⟨rfl, rfl, rfl, rfl, rfl, by decide⟩

/-- C5 witness: the amended theorem evaluated on the empty source. -/
theorem c5_witness :
    assemble [] = Except.ok (mkEhdr 0, default_symtabs, default_shdrtabs default_symtabs)
    ∧ (mkEhdr 0).e_shnum = 7 ∧ (mkEhdr 0).e_shstrndx = 6 :=
  ⟨rfl, (c5_header_counts [] (mkEhdr 0) default_symtabs
      (default_shdrtabs default_symtabs) rfl).1,
    (c5_header_counts [] (mkEhdr 0) default_symtabs
      (default_shdrtabs default_symtabs) rfl).2.1⟩

/-! ### Claim C10 -/

/-- C10: every symbol appended by the parser — for a label declaration or a
`.globl` directive — has `st_name = 1`, so in the produced `.symtab` every
symbol beyond the four fixed section symbols references offset 1 of
`.strtab`, regardless of which name it was created for. -/
theorem c10_parser_syms_st_name_one (src : List Char) (e : Ehdr) (obj : Obj)
    (shdrs : List Shdr) (h : assemble src = Except.ok (e, obj, shdrs)) :
    ∀ s ∈ obj.syms.drop 4, s.st_name = 1 := by
  obtain ⟨hp, _, _⟩ := assemble_eq src e obj shdrs h
  exact (parse_inv _ src 0 default_symtabs obj hp parseInv_default).2.2.2

/-- C10 witness: the theorem evaluated on `x:\n`, whose one label symbol has
`st_name = 1`. -/
theorem c10_witness :
    assemble ("x:\n".data) = Except.ok (mkEhdr 0, objLabelX, default_shdrtabs objLabelX)
    ∧ (⟨1, 0, 0, 1, 0, 0⟩ : Sym).st_name = 1 :=
  ⟨rfl, c10_parser_syms_st_name_one ("x:\n".data) (mkEhdr 0) objLabelX
    (default_shdrtabs objLabelX) rfl ⟨1, 0, 0, 1, 0, 0⟩ (by decide)⟩

/-! ### Claim C6 -/

theorem mnTable_insBytes : ∀ p ∈ mnTable, insBytes p.1 = some p.2 := by
  intro p hp
  fin_cases hp <;> rfl

/-- C6: for each supported zero-operand mnemonic, parsing a statement that
consists of that mnemonic followed by a newline or end-of-file appends exactly
the documented bytes to the code buffer (`nop` 90, `ret`/`retq` C3,
`leave`/`leaveq` C9, `syscall` 0F 05) and continues with the rest of the
source. -/
theorem c6_zero_operand_encodings (m : String) (bs : List Nat)
    (hm : (m, bs) ∈ mnTable) (f : Nat) (src : List Char) (i : Nat) (obj : Obj)
    (t t2 : Token) (i' i2 : Nat)
    (h1 : lex src i = Except.ok (t, i')) (h2 : t.type = TokType.ID)
    (h3 : tokText src t = m)
    (h4 : lex src i' = Except.ok (t2, i2))
    (h5 : t2.type = TokType.NEWLINE ∨ t2.type = TokType.ENDOFFILE) :
    parse (f+1) src i obj
      = parse f src i2 { obj with assembly := obj.assembly ++ bs } := by
  have hins : insBytes (tokText src t) = some bs := by
    rw [h3]; exact mnTable_insBytes (m, bs) hm
  have hex : expectEnd t2.type = true := by
    rcases h5 with h5 | h5 <;> rw [h5] <;> rfl
  simp only [parse]
  rw [h1]
  obtain ⟨ty, len, st⟩ := t
  simp only [Token.type] at h2
  subst h2
  dsimp only
  rw [hins]
  dsimp only
  rw [h4]
  dsimp only
  rw [hex]
  simp

/-- C6 witness: the theorem evaluated on the source `syscall` (terminated by
end-of-file), which appends exactly 0F 05. -/
theorem c6_witness :
    lex ("syscall".data) 0 = Except.ok (⟨TokType.ID, 7, 0⟩, 7)
    ∧ tokText ("syscall".data) ⟨TokType.ID, 7, 0⟩ = "syscall"
    ∧ lex ("syscall".data) 7 = Except.ok (⟨TokType.ENDOFFILE, 1, 7⟩, 7)
    ∧ parse 2 ("syscall".data) 0 default_symtabs
        = parse 1 ("syscall".data) 7
            { default_symtabs with
              assembly := default_symtabs.assembly ++ [0x0F, 0x05] } :=
  ⟨rfl, rfl, rfl,
    c6_zero_operand_encodings "syscall" [0x0F, 0x05] (by decide) 1 ("syscall".data) 0
      default_symtabs ⟨TokType.ID, 7, 0⟩ ⟨TokType.ENDOFFILE, 1, 7⟩ 7 7 rfl rfl rfl rfl
      (Or.inr rfl)⟩

/-! ### Claim C7 -/

/-- C7: when the parser meets a statement headed by an identifier that is not
in the mnemonic table it stops at once with an error naming the exact
mnemonic text (no recovery, no further statements are processed), and a run
whose parse fails with that error produces no object-file bytes. -/
theorem c7_unknown_mnemonic_fatal (f : Nat) (src : List Char) (i : Nat)
    (obj : Obj) (t : Token) (i' : Nat)
    (h1 : lex src i = Except.ok (t, i')) (h2 : t.type = TokType.ID)
    (h3 : insBytes (tokText src t) = none) :
    parse (f+1) src i obj
      = Except.error ("Error: unknown instruction: `" ++ tokText src t ++ "`")
    ∧ (parse (src.length + 1) src 0 default_symtabs
        = Except.error ("Error: unknown instruction: `" ++ tokText src t ++ "`")
      → assembleBytes src
        = Except.error ("Error: unknown instruction: `" ++ tokText src t ++ "`")) := by
  constructor
  · simp only [parse]
    rw [h1]
    obtain ⟨ty, len, st⟩ := t
    simp only [Token.type] at h2
    subst h2
    dsimp only
    rw [h3]
  · intro hp
    simp only [assembleBytes, assemble]
    rw [hp]

/-- C7 witness: the theorem evaluated on the source `foo`: assembly fails
with an error naming `foo` and no file bytes are produced. -/
theorem c7_witness :
    parse 4 ("foo".data) 0 default_symtabs
      = Except.error "Error: unknown instruction: `foo`"
    ∧ assembleBytes ("foo".data)
      = Except.error "Error: unknown instruction: `foo`" := by
  have h := c7_unknown_mnemonic_fatal 3 ("foo".data) 0 default_symtabs
    ⟨TokType.ID, 3, 0⟩ 3 rfl rfl rfl
  exact ⟨h.1, h.2 h.1⟩

/-! ### Claim C8 -/

theorem lexIdEndAux_spec (cs X : List Char) (i : Nat)
    (hcs : ∀ d ∈ cs, isalnumC d = true)
    (hX : isalnumC (X.headD '\x00') = false) :
    lexIdEndAux (cs ++ X) i = i + cs.length := by
  induction cs generalizing i with
  | nil =>
    cases X with
    | nil => rfl
    | cons x l =>
      have hx : isalnumC x = false := hX
      simp [lexIdEndAux, hx]
  | cons c cs ih =>
    have hc : isalnumC c = true := hcs c (by simp)
    simp only [List.cons_append, lexIdEndAux, hc, if_true]
    rw [List.append_eq, ih (i+1) (fun d hd => hcs d (by simp [hd]))]
    simp only [List.length_cons]
    omega

/-- C8 counterexample: `a_b` matches the claim's identifier class
`[A-Za-z_][A-Za-z0-9_]*`, but the lexer stops at the underscore (its
continuation class is `isalnum`, which excludes `_`), producing a token of
length 1 with text `a` instead of a single three-character token. -/
theorem c8_counterexample :
    lex ("a_b".data) 0 = Except.ok (⟨TokType.ID, 1, 0⟩, 1)
    ∧ tokText ("a_b".data) ⟨TokType.ID, 1, 0⟩ = "a"
    ∧ ("a" : String) ≠ "a_b" :=
  ⟨rfl, rfl, by decide⟩

/-- C8 (amended): the lexer recognizes identifiers of the form
`[A-Za-z_][A-Za-z0-9]*` — an underscore may only start an identifier, not
continue it — as a single token; when such an identifier is immediately
followed by `:` it yields a label token whose text excludes the colon, and
the colon is consumed (the cursor advances one past the identifier). -/
theorem c8_identifier_lexing (c : Char) (cs rest : List Char)
    (hc : c = '_' ∨ isalphaC c = true)
    (hcs : ∀ d ∈ cs, isalnumC d = true) :
    lex (c :: (cs ++ ':' :: rest)) 0
      = Except.ok (⟨TokType.LABEL, cs.length + 1, 0⟩, cs.length + 2)
    ∧ tokText (c :: (cs ++ ':' :: rest)) ⟨TokType.LABEL, cs.length + 1, 0⟩
        = String.mk (c :: cs)
    ∧ ∀ rest2 : List Char, isalnumC (rest2.headD '\x00') = false
      → rest2.headD '\x00' ≠ ':'
      → lex (c :: (cs ++ rest2)) 0
          = Except.ok (⟨TokType.ID, cs.length + 1, 0⟩, cs.length + 1) := by
  have hne : ∀ x : Char, isalphaC x = false → x ≠ '_' → c ≠ x := by
    intro x hx hx2 he
    rcases hc with hc | hc
    · exact hx2 (he.symm.trans hc)
    · rw [he] at hc; rw [hc] at hx; exact Bool.noConfusion hx
  have hblank : isblankC c = false := by
    rcases hc with hc | hc
    · rw [hc]; rfl
    · cases hsp : isblankC c
      · rfl
      · have : c = ' ' ∨ c = '\t' := by simpa [isblankC] using hsp
        rcases this with h | h <;> rw [h] at hc <;> exact Bool.noConfusion hc
  have hdollar : c ≠ '$' := hne '$' (by decide) (by decide)
  have hpercent : c ≠ '%' := hne '%' (by decide) (by decide)
  have hnl : c ≠ '\n' := hne '\n' (by decide) (by decide)
  have hnul : c ≠ '\x00' := hne '\x00' (by decide) (by decide)
  have hsemi : c ≠ ';' := hne ';' (by decide) (by decide)
  have hslash : c ≠ '/' := hne '/' (by decide) (by decide)
  have hdot : c ≠ '.' := hne '.' (by decide) (by decide)
  have hcond : (c = '.' || c = '_' || isalphaC c) = true := by
    rcases hc with hc | hc
    · rw [hc]; rfl
    · simp [hc]
  have hsb : ∀ X : List Char, skipBlanks (c :: X) 0 = 0 := by
    intro X
    show skipBlanksAux ((c :: X).drop 0) 0 = 0
    rw [List.drop_zero]
    simp [skipBlanksAux, hblank]
  have hsc : ∀ X : List Char, skip_comments (c :: X) 0 = 0 := by
    intro X
    unfold skip_comments
    rw [if_neg]
    simp only [getC, List.getD_cons_zero]
    simp [hsemi, hslash]
  refine ⟨?_, ?_, ?_⟩
  · have hidend : lexIdEnd (c :: (cs ++ ':' :: rest)) (0+1) = 1 + cs.length := by
      show lexIdEndAux ((c :: (cs ++ ':' :: rest)).drop (0+1)) (0+1) = 1 + cs.length
      rw [List.drop_succ_cons, List.drop_zero]
      simpa using lexIdEndAux_spec cs (':' :: rest) 1 hcs
        (by decide : isalnumC ':' = false)
    have hcolon : getC (c :: (cs ++ ':' :: rest)) (1 + cs.length) = ':' := by
      rw [getC_headD]
      have hdrop : (c :: (cs ++ ':' :: rest)).drop (1 + cs.length) = ':' :: rest := by
        rw [Nat.add_comm 1 cs.length, List.drop_succ_cons, List.drop_left]
      rw [hdrop]; rfl
    unfold lex
    rw [hsb]
    try dsimp only
    rw [hsc]
    try dsimp only
    rw [show getC (c :: (cs ++ ':' :: rest)) 0 = c from rfl]
    rw [if_neg hdollar, if_neg hpercent, if_neg hnl, if_neg hnul, if_pos hcond]
    try dsimp only
    unfold lex_id
    rw [hidend]
    try dsimp only
    rw [if_pos hcolon]
    simp only [Except.ok.injEq, Prod.mk.injEq, Token.mk.injEq]
    exact ⟨⟨trivial, by omega, trivial⟩, by omega⟩
  · show String.mk ((List.drop 0 (c :: (cs ++ ':' :: rest))).take (cs.length + 1))
        = String.mk (c :: cs)
    rw [List.drop_zero, List.take_succ_cons, List.take_left]
  · intro rest2 h2a h2b
    have hidend : lexIdEnd (c :: (cs ++ rest2)) (0+1) = 1 + cs.length := by
      show lexIdEndAux ((c :: (cs ++ rest2)).drop (0+1)) (0+1) = 1 + cs.length
      rw [List.drop_succ_cons, List.drop_zero]
      simpa using lexIdEndAux_spec cs rest2 1 hcs h2a
    have hgetj : getC (c :: (cs ++ rest2)) (1 + cs.length) = rest2.headD '\x00' := by
      rw [getC_headD]
      have hdrop : (c :: (cs ++ rest2)).drop (1 + cs.length) = rest2 := by
        rw [Nat.add_comm 1 cs.length, List.drop_succ_cons, List.drop_left]
      rw [hdrop]
    unfold lex
    rw [hsb]
    try dsimp only
    rw [hsc]
    try dsimp only
    rw [show getC (c :: (cs ++ rest2)) 0 = c from rfl]
    have hnotc : getC (c :: (cs ++ rest2)) (1 + cs.length) ≠ ':' := by
      rw [hgetj]; exact h2b
    rw [if_neg hdollar, if_neg hpercent, if_neg hnl, if_neg hnul, if_pos hcond]
    try dsimp only
    unfold lex_id
    rw [hidend]
    try dsimp only
    rw [if_neg hnotc, if_neg hdot]
    simp only [Except.ok.injEq, Prod.mk.injEq, Token.mk.injEq]
    exact ⟨⟨trivial, by omega, trivial⟩, by omega⟩

/-- C8 witness: the amended theorem evaluated on `ab1:` (label, colon
consumed and excluded) and on `ab1` (plain identifier token). -/
theorem c8_witness :
    lex ("ab1:".data) 0 = Except.ok (⟨TokType.LABEL, 3, 0⟩, 4)
    ∧ tokText ("ab1:".data) ⟨TokType.LABEL, 3, 0⟩ = "ab1"
    ∧ lex ("ab1".data) 0 = Except.ok (⟨TokType.ID, 3, 0⟩, 3) := by
  have h := c8_identifier_lexing 'a' ['b', '1'] [] (Or.inr (by decide)) (by decide)
  exact ⟨h.1, h.2.1, h.2.2 [] (by decide) (by decide)⟩

/-! ### Claim C9 -/

theorem trivAux_false_cons (c : Char) (l : List Char) :
    trivAux false (c :: l) =
      (if c = '\n' then trivAux false l
       else if c = ';' then trivAux true l
       else if c = '/' then
         (match l with
          | d :: l2 => d = '/' && trivAux true l2
          | [] => false)
       else isblankC c && trivAux false l) := by
  rw [trivAux.eq_def]

theorem trivAux_true_cons (c : Char) (l : List Char) :
    trivAux true (c :: l) =
      (if c = '\n' then trivAux false l else (c != '\x00') && trivAux true l) := by
  rw [trivAux.eq_def]

theorem trivAux_blank {c : Char} {l : List Char} (hb : isblankC c = true)
    (h : trivAux false (c :: l) = true) : trivAux false l = true := by
  have hch : c = ' ' ∨ c = '\t' := by simpa [isblankC] using hb
  rcases hch with hch | hch <;> subst hch <;>
    (rw [trivAux_false_cons, if_neg (by decide), if_neg (by decide),
        if_neg (by decide), Bool.and_eq_true] at h
     exact h.2)

theorem trivAux_newline {l : List Char} (h : trivAux false ('\n' :: l) = true) :
    trivAux false l = true := by
  rw [trivAux_false_cons, if_pos rfl] at h
  exact h

theorem trivAux_semi {l : List Char} (h : trivAux false (';' :: l) = true) :
    trivAux true l = true := by
  rw [trivAux_false_cons, if_neg (by decide), if_pos rfl] at h
  exact h

theorem trivAux_slash {l : List Char} (h : trivAux false ('/' :: l) = true) :
    ∃ l2, l = '/' :: l2 ∧ trivAux true l2 = true := by
  rw [trivAux_false_cons, if_neg (by decide), if_neg (by decide),
    if_pos rfl] at h
  cases l with
  | nil => exact Bool.noConfusion h
  | cons d l2 =>
    have h2 : (decide (d = '/') && trivAux true l2) = true := h
    rw [Bool.and_eq_true, decide_eq_true_eq] at h2
    exact ⟨l2, by rw [h2.1], h2.2⟩

theorem trivAux_other {c : Char} {l : List Char} (hnl : c ≠ '\n')
    (hsemi : c ≠ ';') (hsl : c ≠ '/') (hb : isblankC c = false)
    (h : trivAux false (c :: l) = true) : False := by
  rw [trivAux_false_cons, if_neg hnl, if_neg hsemi, if_neg hsl, hb,
    Bool.false_and] at h
  exact Bool.noConfusion h

theorem trivAux_true_nl {l : List Char} (h : trivAux true ('\n' :: l) = true) :
    trivAux false l = true := by
  rw [trivAux_true_cons, if_pos rfl] at h
  exact h

theorem trivAux_true_other {c : Char} {l : List Char} (hnl : c ≠ '\n')
    (h : trivAux true (c :: l) = true) : c ≠ '\x00' ∧ trivAux true l = true := by
  rw [trivAux_true_cons, if_neg hnl, Bool.and_eq_true] at h
  exact ⟨by simpa using h.1, h.2⟩

theorem skip_comments_none (src : List Char) (j : Nat)
    (h1 : getC src j ≠ ';') (h2 : getC src j ≠ '/') : skip_comments src j = j := by
  unfold skip_comments
  rw [if_neg]
  simp only [Bool.or_eq_true, Bool.and_eq_true, decide_eq_true_eq]
  rintro (hcc | ⟨hcc, -⟩)
  · exact h1 hcc
  · exact h2 hcc

theorem skip_comments_semi (src : List Char) (j : Nat) (h : getC src j = ';') :
    skip_comments src j = findEol src (j+1) := by
  unfold skip_comments
  rw [if_pos]
  simp only [Bool.or_eq_true, decide_eq_true_eq]
  exact Or.inl h

theorem skip_comments_slashes (src : List Char) (j : Nat)
    (h1 : getC src j = '/') (h2 : getC src (j+1) = '/') :
    skip_comments src j = findEol src (j+1) := by
  unfold skip_comments
  rw [if_pos]
  simp only [Bool.or_eq_true, Bool.and_eq_true, decide_eq_true_eq]
  exact Or.inr ⟨h1, h2⟩

theorem findEolAux_cons_ne (c : Char) (l : List Char) (i : Nat)
    (h1 : c ≠ '\n') (h2 : c ≠ '\x00') :
    findEolAux (c :: l) i = findEolAux l (i+1) := by
  simp [findEolAux, h1, h2]

theorem skipBlanksAux_triv : ∀ (l src : List Char) (i : Nat), src.drop i = l →
    i ≤ skipBlanksAux l i
    ∧ isblankC (getC src (skipBlanksAux l i)) = false
    ∧ (trivAux false l = true → trivAux false (src.drop (skipBlanksAux l i)) = true) := by
  intro l
  induction l with
  | nil =>
    intro src i hd
    refine ⟨Nat.le_refl i, ?_, fun h => ?_⟩
    · rw [show skipBlanksAux [] i = i from rfl, getC_headD, hd]; rfl
    · rw [show skipBlanksAux [] i = i from rfl, hd]; rfl
  | cons ch l ih =>
    intro src i hd
    by_cases hb : isblankC ch = true
    · have hd1 : src.drop (i+1) = l := drop_succ_of_drop_cons hd
      obtain ⟨hr1, hr2, hr3⟩ := ih src (i+1) hd1
      have hstep : skipBlanksAux (ch :: l) i = skipBlanksAux l (i+1) := by
        simp [skipBlanksAux, hb]
      rw [hstep]
      exact ⟨by omega, hr2, fun h => hr3 (trivAux_blank hb h)⟩
    · rw [Bool.not_eq_true] at hb
      have hstep : skipBlanksAux (ch :: l) i = i := by simp [skipBlanksAux, hb]
      rw [hstep]
      refine ⟨Nat.le_refl i, ?_, fun h => by rw [hd]; exact h⟩
      rw [getC_of_drop_cons hd]
      exact hb

theorem findEolAux_triv : ∀ (l src : List Char) (i : Nat), src.drop i = l →
    trivAux true l = true →
    i ≤ findEolAux l i
    ∧ (src.drop (findEolAux l i) = []
       ∨ (getC src (findEolAux l i) = '\n'
          ∧ trivAux false (src.drop (findEolAux l i + 1)) = true)) := by
  intro l
  induction l with
  | nil =>
    intro src i hd _
    exact ⟨Nat.le_refl i, Or.inl (by rw [show findEolAux [] i = i from rfl, hd])⟩
  | cons ch l ih =>
    intro src i hd htr
    by_cases hnlc : ch = '\n'
    · subst hnlc
      have hstep : findEolAux ('\n' :: l) i = i := by simp [findEolAux]
      rw [hstep]
      refine ⟨Nat.le_refl i, Or.inr ⟨getC_of_drop_cons hd, ?_⟩⟩
      rw [drop_succ_of_drop_cons hd]
      exact trivAux_true_nl htr
    · obtain ⟨hnul, htl⟩ := trivAux_true_other hnlc htr
      rw [findEolAux_cons_ne ch l i hnlc hnul]
      obtain ⟨hr1, hr2⟩ := ih src (i+1) (drop_succ_of_drop_cons hd) htl
      exact ⟨by omega, hr2⟩

/-- Evaluation of `lex` when the cursor, after blank and comment skipping,
lands on a newline or on the terminating NUL. -/
theorem lex_eval_at (src : List Char) (i j p : Nat)
    (hsb : skipBlanks src i = j) (hsc : skip_comments src j = p) :
    (getC src p = '\n' → lex src i = Except.ok (⟨TokType.NEWLINE, 1, p⟩, p+1))
    ∧ (getC src p = '\x00' → lex src i = Except.ok (⟨TokType.ENDOFFILE, 1, p⟩, p)) := by
  constructor <;> intro hg <;>
    (unfold lex
     rw [hsb]
     try dsimp only
     rw [hsc]
     try dsimp only
     rw [hg])
  · rw [if_neg (by decide), if_neg (by decide), if_pos rfl]
  · rw [if_neg (by decide), if_neg (by decide), if_neg (by decide), if_pos rfl]

theorem lex_triv (src : List Char) (i : Nat)
    (h : trivAux false (src.drop i) = true) :
    (∃ j, lex src i = Except.ok (⟨TokType.NEWLINE, 1, j⟩, j+1) ∧ i ≤ j
          ∧ j < src.length ∧ trivAux false (src.drop (j+1)) = true)
    ∨ (∃ j, lex src i = Except.ok (⟨TokType.ENDOFFILE, 1, j⟩, j)) := by
  obtain ⟨hj1, hj2, hj3⟩ := skipBlanksAux_triv (src.drop i) src i rfl
  have hsbj : skipBlanks src i = skipBlanksAux (src.drop i) i := rfl
  set j := skipBlanksAux (src.drop i) i with hjdef
  have htj := hj3 h
  cases hdrop : src.drop j with
  | nil =>
    have hnul : getC src j = '\x00' := by rw [getC_headD, hdrop]; rfl
    have hscj : skip_comments src j = j :=
      skip_comments_none src j (by rw [hnul]; decide) (by rw [hnul]; decide)
    exact Or.inr ⟨j, (lex_eval_at src i j j hsbj hscj).2 hnul⟩
  | cons ch l =>
    have hgc : getC src j = ch := getC_of_drop_cons hdrop
    have hjlen : j < src.length := lt_length_of_drop_cons hdrop
    have hblank : isblankC ch = false := by rw [← hgc]; exact hj2
    have hd1 : src.drop (j+1) = l := drop_succ_of_drop_cons hdrop
    rw [hdrop] at htj
    by_cases hch : ch = '\n'
    · subst hch
      have hscj : skip_comments src j = j :=
        skip_comments_none src j (by rw [hgc]; decide) (by rw [hgc]; decide)
      refine Or.inl ⟨j, (lex_eval_at src i j j hsbj hscj).1 hgc, hj1, hjlen, ?_⟩
      rw [hd1]
      exact trivAux_newline htj
    · by_cases hsemi : ch = ';'
      · subst hsemi
        have htl : trivAux true l = true := trivAux_semi htj
        obtain ⟨hm1, hmcase⟩ := findEolAux_triv l src (j+1) hd1 htl
        have hscj : skip_comments src j = findEolAux l (j+1) := by
          rw [skip_comments_semi src j hgc]
          show findEolAux (src.drop (j+1)) (j+1) = _
          rw [hd1]
        rcases hmcase with hm | ⟨hmnl, hmtr⟩
        · have hnul : getC src (findEolAux l (j+1)) = '\x00' := by
            rw [getC_headD, hm]; rfl
          exact Or.inr ⟨findEolAux l (j+1),
            (lex_eval_at src i j (findEolAux l (j+1)) hsbj hscj).2 hnul⟩
        · refine Or.inl ⟨findEolAux l (j+1),
            (lex_eval_at src i j (findEolAux l (j+1)) hsbj hscj).1 hmnl,
            by omega, getC_ne_nul_lt (by rw [hmnl]; decide), hmtr⟩
      · by_cases hsl : ch = '/'
        · subst hsl
          obtain ⟨l2, hl2, htl2⟩ := trivAux_slash htj
          subst hl2
          have hgc2 : getC src (j+1) = '/' := getC_of_drop_cons hd1
          have hd2 : src.drop (j+2) = l2 := drop_succ_of_drop_cons hd1
          obtain ⟨hm1, hmcase⟩ := findEolAux_triv l2 src (j+2) hd2 htl2
          have hscj : skip_comments src j = findEolAux l2 (j+2) := by
            rw [skip_comments_slashes src j hgc hgc2]
            show findEolAux (src.drop (j+1)) (j+1) = _
            rw [hd1, findEolAux_cons_ne '/' l2 (j+1) (by decide) (by decide)]
          rcases hmcase with hm | ⟨hmnl, hmtr⟩
          · have hnul : getC src (findEolAux l2 (j+2)) = '\x00' := by
              rw [getC_headD, hm]; rfl
            exact Or.inr ⟨findEolAux l2 (j+2),
              (lex_eval_at src i j (findEolAux l2 (j+2)) hsbj hscj).2 hnul⟩
          · refine Or.inl ⟨findEolAux l2 (j+2),
              (lex_eval_at src i j (findEolAux l2 (j+2)) hsbj hscj).1 hmnl,
              by omega, getC_ne_nul_lt (by rw [hmnl]; decide), hmtr⟩
        · exact absurd htj (by intro hx; exact trivAux_other hch hsemi hsl hblank hx)

theorem parse_triv : ∀ (f : Nat) (src : List Char) (i : Nat) (obj : Obj),
    trivAux false (src.drop i) = true → i ≤ src.length → src.length + 1 - i ≤ f →
    parse f src i obj = Except.ok obj := by
  intro f
  induction f with
  | zero => intro src i obj _ h1 h2; omega
  | succ f ih =>
    intro src i obj htriv hlen hfuel
    rcases lex_triv src i htriv with ⟨j, hlex, hij, hjlen, htriv2⟩ | ⟨j, hlex⟩
    · have hrec := ih src (j+1) obj htriv2 (by omega) (by omega)
      simp only [parse]
      rw [hlex]
      exact hrec
    · simp only [parse]
      rw [hlex]

/-- C9: for any input consisting solely of whitespace, comments and newlines,
assembly succeeds with an unchanged object state, and the produced `.text`
section header records size 0. -/
theorem c9_trivial_input (src : List Char) (h : trivSrc src = true) :
    assemble src = Except.ok (mkEhdr 0, default_symtabs, default_shdrtabs default_symtabs)
    ∧ ((default_shdrtabs default_symtabs).getD 1 shdrNull).sh_size = 0 := by
  have hp : parse (src.length + 1) src 0 default_symtabs = Except.ok default_symtabs :=
    parse_triv (src.length + 1) src 0 default_symtabs (by simpa [trivSrc] using h)
      (Nat.zero_le _) (by omega)
  constructor
  · unfold assemble
    rw [hp]
    rfl
  · rfl

/-- C9 witness: the theorem evaluated on a source of blanks, a `;` comment, a
`//` comment and bare newlines. -/
theorem c9_witness :
    trivSrc ("  ; note\n// note\n\t\n".data) = true
    ∧ assemble ("  ; note\n// note\n\t\n".data)
        = Except.ok (mkEhdr 0, default_symtabs, default_shdrtabs default_symtabs)
    ∧ ((default_shdrtabs default_symtabs).getD 1 shdrNull).sh_size = 0 := by
  have h := c9_trivial_input ("  ; note\n// note\n\t\n".data) (by decide)
  exact ⟨by decide, h.1, h.2⟩

end Pasm
